import Mathlib

/-!
Verification of the hierarchical test discovery and selective-execution engine
of `automutate-tests`, embedded from `src/testsFactory.ts` and, for the
collaborating modules that the repository imports but whose sources are not
available here (`hierarchyCrawler.ts`, `describeTests.ts`, `testCase.ts`,
`autoMutatorFactory.ts`), modelled from the specification.

Machine-level conventions of the embedding:
 - the filesystem is a finite tree value (`FsDir`) handed to the crawler, with
   the root directory possibly absent (`Option FsDir`);
 - a JavaScript `RegExp` inclusion pattern is modelled by its extension, the
   Boolean matching function it induces on qualified names;
 - the mocha-style registration performed by `describeTests` is modelled by the
   `Report` tree it registers, and the observable side effects of
   `TestsFactory.describe` (console logging, crawling, registration) by an
   ordered list of `DescribeEvent`s.
-/

/-- Joins a directory path and a relative file name, as `path.join` does for
the plain relative segments used by this program. -/
def pathJoin (a b : String) : String := a ++ "/" ++ b

/-- A filesystem directory: the names of its non-directory direct children
(`files`) and its direct subdirectories (`subdirs`), in enumeration order. -/
inductive FsDir : Type where
  | mk (files : List String) (subdirs : List (String × FsDir)) : FsDir

/-- Names of the non-directory direct children of a directory. -/
def FsDir.files : FsDir → List String
  | .mk fs _ => fs

/-- Direct subdirectories of a directory, with their base names. -/
def FsDir.subdirs : FsDir → List (String × FsDir)
  | .mk _ sd => sd

/-- A hierarchy node (spec §3): either a leaf test case or a suite owning an
ordered list of children. Classification is decided once, at crawl time. -/
inductive Hierarchy : Type where
  | case (label : String) (directoryPath : String) : Hierarchy
  | suite (label : String) (directoryPath : String) (children : List Hierarchy) : Hierarchy

/-- Display label of a hierarchy node. -/
def Hierarchy.label : Hierarchy → String
  | .case l _ => l
  | .suite l _ _ => l

/-- Filesystem location of a hierarchy node. -/
def Hierarchy.directoryPath : Hierarchy → String
  | .case _ p => p
  | .suite _ p _ => p

/-- Whether a hierarchy node is a leaf `Case`. -/
def Hierarchy.isCase : Hierarchy → Bool
  | .case _ _ => true
  | .suite _ _ _ => false

/-- Whether a hierarchy node is a `Suite`. -/
def Hierarchy.isSuite : Hierarchy → Bool
  | .case _ _ => false
  | .suite _ _ _ => true

/-- Qualified name (spec §3): the root-to-node path of labels joined by a
separator, computed on demand during the recursive walk. -/
def qualify (pre label : String) : String :=
  if pre = "" then label else pre ++ "/" ++ label

/-- Error raised by the crawler (spec §7). -/
inductive CrawlError : Type where
  | notFound (path : String) : CrawlError

/-- Modelled from the spec: `hierarchyCrawler.ts` is imported by
`testsFactory.ts` but is not under `src/`. Per §4.2 the crawler holds the
required test-case file name it tests directories against; per
`testsFactory.ts` line 50 it is constructed with exactly one file name,
`settings.original`. -/
structure HierarchyCrawler : Type where
  originalFileName : String

mutual

/-- Modelled from the spec: the recursive step of `HierarchyCrawler.crawl`
(§4.2). Given a directory, first test the leaf predicate — the directory
contains the crawler's required file name as a direct child — and, if
satisfied, produce a `Case` node and stop descending; otherwise enumerate the
direct subdirectories (non-directory entries are ignored), recursively crawl
each using its base name as label, and produce a `Suite` node owning the
ordered children. -/
def HierarchyCrawler.crawlDir (c : HierarchyCrawler) (label directoryPath : String) : FsDir → Hierarchy
  | .mk files subdirs =>
      if files.contains c.originalFileName then
        Hierarchy.case label directoryPath
      else
        Hierarchy.suite label directoryPath (HierarchyCrawler.crawlList c directoryPath subdirs)

/-- Modelled from the spec: crawls the direct subdirectories of a directory in
order, joining each base name onto the parent path (§4.2). -/
def HierarchyCrawler.crawlList (c : HierarchyCrawler) (directoryPath : String) : List (String × FsDir) → List Hierarchy
  | [] => []
  | (name, d) :: rest =>
      HierarchyCrawler.crawlDir c name (pathJoin directoryPath name) d ::
        HierarchyCrawler.crawlList c directoryPath rest

end

/-- Modelled from the spec: `crawl(rootLabel, rootPath) -> HierarchyNode`
(§4.2). The root path must exist; if it does not, the operation fails with a
`NotFound` error naming the missing path. -/
def HierarchyCrawler.crawl (c : HierarchyCrawler) (rootLabel rootPath : String) (root : Option FsDir) :
    Except CrawlError Hierarchy :=
  match root with
  | none => Except.error (CrawlError.notFound rootPath)
  | some d => Except.ok (c.crawlDir rootLabel rootPath d)

/-- An inclusion pattern: a JavaScript `RegExp` modelled by the Boolean
matching function it induces on qualified names. -/
abbrev Pattern : Type := String → Bool

/-- Modelled from the spec: `isIncluded(qualifiedName, patterns) -> bool`
(§4.3). If the pattern set is empty or undefined every name is included;
otherwise inclusion holds iff any pattern matches the qualified name. -/
def isIncluded (qualifiedName : String) (patterns : Option (List Pattern)) : Bool :=
  match patterns with
  | none => true
  | some ps => ps.isEmpty || ps.any (fun p => p qualifiedName)

/-- A registered report node: what `describeTests` hands to the reporting
framework. A `test` node carries whether it is run (admitted by the inclusion
filter) or registered-but-skipped, and the body handed to the framework. -/
inductive Report (ρ : Type) : Type where
  | suite (label : String) (children : List (Report ρ)) : Report ρ
  | test (label : String) (run : Bool) (body : ρ) : Report ρ

/-- Display label of a registered report node. -/
def Report.label {ρ : Type} : Report ρ → String
  | .suite l _ => l
  | .test l _ _ => l

mutual

/-- Modelled from the spec: the recursive contract of `describeTests` (§4.4),
walking one node. For a `Suite` node, open a named suite scope and describe
each child inside it in order. For a `Case` node, compute the qualified name
and consult the inclusion filter; if admitted, register a test whose body
invokes the runner on the node; if not admitted, the case is registered but
skipped (§8: never silently absent from the suite tree). -/
def describeHierarchy {ρ : Type} (runner : Hierarchy → ρ) (patterns : Option (List Pattern)) (pre : String) :
    Hierarchy → Report ρ
  | .case label directoryPath =>
      Report.test label (isIncluded (qualify pre label) patterns) (runner (Hierarchy.case label directoryPath))
  | .suite label _ children =>
      Report.suite label (describeHierarchyList runner patterns (qualify pre label) children)

/-- Modelled from the spec: describes the children of a suite scope in order
(§4.4). -/
def describeHierarchyList {ρ : Type} (runner : Hierarchy → ρ) (patterns : Option (List Pattern)) (pre : String) :
    List Hierarchy → List (Report ρ)
  | [] => []
  | h :: rest =>
      describeHierarchy runner patterns pre h :: describeHierarchyList runner patterns pre rest

end

/-- Modelled from the spec: `describeTests(rootHierarchy, runner, patterns)`
(§4.4), called by `testsFactory.ts` lines 66–70. -/
def describeTests {ρ : Type} (root : Hierarchy) (runner : Hierarchy → ρ) (patterns : Option (List Pattern)) :
    Report ρ :=
  describeHierarchy runner patterns "" root

/-- Modelled from the spec: `testCase.ts` is not under `src/`. Per §6 and the
record literal of `TestsFactory.createTestCaseSettings` (lines 79–87), a test
case settings record holds the four resolved filesystem paths and the
forwarded `accept` flag. -/
structure ITestCaseSettings : Type where
  accept : Option Bool
  actual : String
  expected : String
  original : String
  settings : String

/-- Settings to describe test cases (`testsFactory.ts` lines 12–17): the test
case settings plus the optional inclusion patterns. -/
structure ITestDescriptionSettings extends ITestCaseSettings : Type where
  includes : Option (List Pattern)

/-- Modelled from the spec: `autoMutatorFactory.ts` is not under `src/`. Per
`testsFactory.ts` line 47 it wraps the injected mutations provider factory,
an opaque capability of type `M`. -/
structure AutoMutatorFactory (M : Type) : Type where
  mutationsProviderFactory : M

/-- Modelled from the spec: `runTestCase(settings, autoMutatorFactory)` of
`testCase.ts` is the injected per-case workflow (§6); it is modelled by the
argument record it is invoked with. -/
structure RunTestCaseCall (M : Type) : Type where
  settings : ITestCaseSettings
  autoMutatorFactory : AutoMutatorFactory M

/-- The `TestsFactory` class state (`testsFactory.ts` lines 24–51). -/
structure TestsFactory (M : Type) : Type where
  autoMutatorFactory : AutoMutatorFactory M
  hierarchyCrawler : HierarchyCrawler
  settings : ITestDescriptionSettings

/-- The `TestsFactory` constructor (`testsFactory.ts` lines 46–51): wraps the
mutations provider factory, stores the settings, and constructs the hierarchy
crawler from `settings.original`. -/
def TestsFactory.new {M : Type} (mutationsProviderFactory : M) (settings : ITestDescriptionSettings) :
    TestsFactory M :=
  { autoMutatorFactory := { mutationsProviderFactory := mutationsProviderFactory }
    hierarchyCrawler := { originalFileName := settings.original }
    settings := settings }

/-- `TestsFactory.createTestCaseSettings` (`testsFactory.ts` lines 79–87):
joins the case path with each configured relative file name and forwards the
`accept` flag. -/
def TestsFactory.createTestCaseSettings {M : Type} (tf : TestsFactory M) (casePath : String) :
    ITestCaseSettings :=
  { accept := tf.settings.accept
    actual := pathJoin casePath tf.settings.actual
    expected := pathJoin casePath tf.settings.expected
    original := pathJoin casePath tf.settings.original
    settings := pathJoin casePath tf.settings.settings }

/-- `TestsFactory.runTest` (`testsFactory.ts` lines 95–97): creates the test
case settings from the hierarchy node's directory path and invokes
`runTestCase` with them and the stored auto mutator factory. -/
def TestsFactory.runTest {M : Type} (tf : TestsFactory M) (hierarchy : Hierarchy) : RunTestCaseCall M :=
  { settings := tf.createTestCaseSettings hierarchy.directoryPath
    autoMutatorFactory := tf.autoMutatorFactory }

/-- Observable step of `TestsFactory.describe`, in order of occurrence:
console logging of the inclusion patterns, the crawl of the cases directory,
and the registration of the described tests. -/
inductive DescribeEvent (M : Type) : Type where
  | logIncludes (patterns : List Pattern) : DescribeEvent M
  | crawlStart (rootLabel : String) (casesPath : String) : DescribeEvent M
  | registerTests (report : Report (RunTestCaseCall M)) : DescribeEvent M

/-- Whether an event is the console log of the inclusion patterns. -/
def DescribeEvent.isLogIncludes {M : Type} : DescribeEvent M → Bool
  | .logIncludes _ => true
  | _ => false

/-- Whether an event is the registration of the described tests. -/
def DescribeEvent.isRegisterTests {M : Type} : DescribeEvent M → Bool
  | .registerTests _ => true
  | _ => false

/-- The console-log step of `TestsFactory.describe` (`testsFactory.ts` lines
59–64): the patterns are logged iff `includes` is defined and nonempty. -/
def TestsFactory.logIncludesEvents {M : Type} (tf : TestsFactory M) : List (DescribeEvent M) :=
  match tf.settings.includes with
  | some ps => if ps.length ≠ 0 then [DescribeEvent.logIncludes ps] else []
  | none => []

/-- `TestsFactory.describe` (`testsFactory.ts` lines 58–71): log the inclusion
patterns when defined and nonempty, crawl the cases directory under the fixed
root label `"cases"`, and register the described tests with `runTest` as the
per-case runner; a crawl failure is surfaced and nothing is registered. -/
def TestsFactory.describe {M : Type} (tf : TestsFactory M) (casesPath : String) (root : Option FsDir) :
    List (DescribeEvent M) × Option CrawlError :=
  match tf.hierarchyCrawler.crawl "cases" casesPath root with
  | Except.error e =>
      (tf.logIncludesEvents ++ [DescribeEvent.crawlStart "cases" casesPath], some e)
  | Except.ok h =>
      (tf.logIncludesEvents ++
        [DescribeEvent.crawlStart "cases" casesPath,
         DescribeEvent.registerTests (describeTests h (fun hh => tf.runTest hh) tf.settings.includes)],
       none)

/-- `describeMutationTestCases` (`testsFactory.ts` lines 105–114): constructs
a `TestsFactory` from the factory and settings and delegates to its
`describe` method. -/
def describeMutationTestCases {M : Type} (casesPath : String) (mutationsProviderFactory : M)
    (settings : ITestDescriptionSettings) (root : Option FsDir) :
    List (DescribeEvent M) × Option CrawlError :=
  (TestsFactory.new mutationsProviderFactory settings).describe casesPath root

/-- The reports registered among a list of describe events. -/
def registeredReports {M : Type} (events : List (DescribeEvent M)) : List (Report (RunTestCaseCall M)) :=
  events.filterMap (fun e =>
    match e with
    | DescribeEvent.registerTests r => some r
    | _ => none)

mutual

/-- Qualified names of the leaf `Case` nodes of a hierarchy, in registration
order, starting from the given name prefix. -/
def Hierarchy.leafQualifiedNames (pre : String) : Hierarchy → List String
  | .case label _ => [qualify pre label]
  | .suite label _ children => Hierarchy.leafQualifiedNamesList (qualify pre label) children

/-- Qualified names of the leaf `Case` nodes of a list of hierarchy nodes. -/
def Hierarchy.leafQualifiedNamesList (pre : String) : List Hierarchy → List String
  | [] => []
  | h :: rest => Hierarchy.leafQualifiedNames pre h ++ Hierarchy.leafQualifiedNamesList pre rest

end

mutual

/-- Qualified name and run flag of every registered test node of a report, in
registration order, recomputing qualified names from the suite nesting. -/
def Report.runEntries {ρ : Type} (pre : String) : Report ρ → List (String × Bool)
  | .suite label children => Report.runEntriesList (qualify pre label) children
  | .test label run _ => [(qualify pre label, run)]

/-- Qualified names and run flags of the test nodes of a list of reports. -/
def Report.runEntriesList {ρ : Type} (pre : String) : List (Report ρ) → List (String × Bool)
  | [] => []
  | r :: rest => Report.runEntries pre r ++ Report.runEntriesList pre rest

end

/-- The shape of a registered report: the suite/test structure and labels,
with run flags and test bodies erased. -/
inductive ReportShape : Type where
  | suite (label : String) (children : List ReportShape) : ReportShape
  | test (label : String) : ReportShape

mutual

/-- Shape of a report: suite/test structure and labels only. -/
def Report.shape {ρ : Type} : Report ρ → ReportShape
  | .suite label children => ReportShape.suite label (Report.shapeList children)
  | .test label _ _ => ReportShape.test label

/-- Shapes of a list of reports. -/
def Report.shapeList {ρ : Type} : List (Report ρ) → List ReportShape
  | [] => []
  | r :: rest => Report.shape r :: Report.shapeList rest

end

mutual

/-- The report shape a hierarchy induces: one suite scope per `Suite` node and
one test per `Case` node, labels preserved. -/
def Hierarchy.reportSkeleton : Hierarchy → ReportShape
  | .case label _ => ReportShape.test label
  | .suite label _ children => ReportShape.suite label (Hierarchy.reportSkeletonList children)

/-- Report shapes induced by a list of hierarchy nodes. -/
def Hierarchy.reportSkeletonList : List Hierarchy → List ReportShape
  | [] => []
  | h :: rest => Hierarchy.reportSkeleton h :: Hierarchy.reportSkeletonList rest

end

mutual

/-- Qualified names of the leaf directories under a directory: those whose
direct children contain the crawler's required file name, named by joining
base-name labels from the root label downward. -/
def FsDir.leafDirNames (orig pre label : String) : FsDir → List String
  | .mk files subdirs =>
      if files.contains orig then [qualify pre label]
      else FsDir.leafDirNamesList orig (qualify pre label) subdirs

/-- Qualified names of the leaf directories under a list of subdirectories. -/
def FsDir.leafDirNamesList (orig pre : String) : List (String × FsDir) → List String
  | [] => []
  | (name, d) :: rest =>
      FsDir.leafDirNames orig pre name d ++ FsDir.leafDirNamesList orig pre rest

end

/-- The leaf predicate as the specification words it (§6, §8): all four
configured role files — original, expected, actual, settings — present as
direct children of the directory. -/
def allRequiredRoleFilesPresent (s : ITestDescriptionSettings) (d : FsDir) : Bool :=
  d.files.contains s.original && d.files.contains s.expected &&
    d.files.contains s.actual && d.files.contains s.settings

/-- Concrete configuration used by the counterexamples and witnesses. -/
def exampleRoleSettings : ITestDescriptionSettings :=
  { accept := none
    actual := "actual.txt"
    expected := "expected.txt"
    original := "original.txt"
    settings := "settings.json"
    includes := none }

/-- A directory whose only direct child is the configured original file. -/
def exampleOriginalOnlyDir : FsDir := FsDir.mk ["original.txt"] []

/-- A directory holding the original and expected files but not the actual
and settings files. -/
def exampleOriginalExpectedDir : FsDir := FsDir.mk ["original.txt", "expected.txt"] []

/-- A directory holding the expected file but not the original file. -/
def exampleExpectedOnlyDir : FsDir := FsDir.mk ["expected.txt"] [("sub", FsDir.mk [] [])]

/-- A two-group hierarchy used by concrete witnesses. -/
def exampleHierarchy : Hierarchy :=
  Hierarchy.suite "cases" "cases"
    [Hierarchy.suite "group-a" "cases/group-a"
      [Hierarchy.case "case-1" "cases/group-a/case-1",
       Hierarchy.case "case-2" "cases/group-a/case-2"],
     Hierarchy.suite "group-b" "cases/group-b"
      [Hierarchy.case "case-3" "cases/group-b/case-3"]]

/-- A runner for witnesses that records the directory path it was handed. -/
def exampleRunner : Hierarchy → String := fun h => h.directoryPath

/-- A pattern matching exactly one qualified name inside group-a. -/
def examplePattern : Pattern := fun s => s == "cases/group-a/case-1"

/-- A concrete two-group directory tree whose three innermost directories each
hold the original role file. -/
def exampleFsTree : FsDir :=
  FsDir.mk []
    [("group-a", FsDir.mk []
        [("case-1", FsDir.mk ["original.txt"] []),
         ("case-2", FsDir.mk ["original.txt"] [])]),
     ("group-b", FsDir.mk []
        [("case-3", FsDir.mk ["original.txt"] [])])]

/-- A concrete factory over a trivial mutations provider factory. -/
def exampleTestsFactory : TestsFactory Nat := TestsFactory.new 0 exampleRoleSettings

mutual

/-- The run entries of a described node list every leaf qualified name, each
flagged with the inclusion filter's verdict on that name. -/
theorem runEntries_describeHierarchy {ρ : Type} (runner : Hierarchy → ρ) (pats : Option (List Pattern))
    (pre : String) (h : Hierarchy) :
    Report.runEntries pre (describeHierarchy runner pats pre h) =
      (Hierarchy.leafQualifiedNames pre h).map (fun qn => (qn, isIncluded qn pats)) := by
  cases h with
  | case label dirPath =>
      simp [describeHierarchy, Report.runEntries, Hierarchy.leafQualifiedNames]
  | suite label dirPath children =>
      simp only [describeHierarchy, Report.runEntries, Hierarchy.leafQualifiedNames]
      exact runEntriesList_describeHierarchyList runner pats (qualify pre label) children

/-- List version of `runEntries_describeHierarchy`. -/
theorem runEntriesList_describeHierarchyList {ρ : Type} (runner : Hierarchy → ρ) (pats : Option (List Pattern))
    (pre : String) (l : List Hierarchy) :
    Report.runEntriesList pre (describeHierarchyList runner pats pre l) =
      (Hierarchy.leafQualifiedNamesList pre l).map (fun qn => (qn, isIncluded qn pats)) := by
  cases l with
  | nil => simp [describeHierarchyList, Report.runEntriesList, Hierarchy.leafQualifiedNamesList]
  | cons h t =>
      simp only [describeHierarchyList, Report.runEntriesList, Hierarchy.leafQualifiedNamesList,
        List.map_append]
      rw [runEntries_describeHierarchy runner pats pre h,
        runEntriesList_describeHierarchyList runner pats pre t]

end

mutual

/-- The leaf qualified names of a crawled directory are the qualified names of
the directories containing the crawler's required file. -/
theorem leafQualifiedNames_crawlDir (c : HierarchyCrawler) (label dirPath pre : String) (d : FsDir) :
    Hierarchy.leafQualifiedNames pre (c.crawlDir label dirPath d) =
      FsDir.leafDirNames c.originalFileName pre label d := by
  cases d with
  | mk files subdirs =>
      rw [HierarchyCrawler.crawlDir, FsDir.leafDirNames]
      split
      · rw [Hierarchy.leafQualifiedNames]
      · rw [Hierarchy.leafQualifiedNames]
        exact leafQualifiedNamesList_crawlList c dirPath (qualify pre label) subdirs

/-- List version of `leafQualifiedNames_crawlDir`. -/
theorem leafQualifiedNamesList_crawlList (c : HierarchyCrawler) (dirPath pre : String)
    (l : List (String × FsDir)) :
    Hierarchy.leafQualifiedNamesList pre (c.crawlList dirPath l) =
      FsDir.leafDirNamesList c.originalFileName pre l := by
  cases l with
  | nil => rw [HierarchyCrawler.crawlList, Hierarchy.leafQualifiedNamesList, FsDir.leafDirNamesList]
  | cons nd t =>
      rw [HierarchyCrawler.crawlList, Hierarchy.leafQualifiedNamesList, FsDir.leafDirNamesList,
        leafQualifiedNames_crawlDir c nd.1 (pathJoin dirPath nd.1) pre nd.2,
        leafQualifiedNamesList_crawlList c dirPath pre t]

end

mutual

/-- The shape of a described node is the report skeleton of the hierarchy,
independent of the runner and of the inclusion patterns. -/
theorem shape_describeHierarchy {ρ : Type} (runner : Hierarchy → ρ) (pats : Option (List Pattern))
    (pre : String) (h : Hierarchy) :
    Report.shape (describeHierarchy runner pats pre h) = Hierarchy.reportSkeleton h := by
  cases h with
  | case label dirPath => rw [describeHierarchy, Report.shape, Hierarchy.reportSkeleton]
  | suite label dirPath children =>
      rw [describeHierarchy, Report.shape, Hierarchy.reportSkeleton,
        shapeList_describeHierarchyList runner pats (qualify pre label) children]

/-- List version of `shape_describeHierarchy`. -/
theorem shapeList_describeHierarchyList {ρ : Type} (runner : Hierarchy → ρ) (pats : Option (List Pattern))
    (pre : String) (l : List Hierarchy) :
    Report.shapeList (describeHierarchyList runner pats pre l) = Hierarchy.reportSkeletonList l := by
  cases l with
  | nil => rw [describeHierarchyList, Report.shapeList, Hierarchy.reportSkeletonList]
  | cons h t =>
      rw [describeHierarchyList, Report.shapeList, Hierarchy.reportSkeletonList,
        shape_describeHierarchy runner pats pre h, shapeList_describeHierarchyList runner pats pre t]

end

/-- Describing a node preserves its display label. -/
theorem label_describeHierarchy {ρ : Type} (runner : Hierarchy → ρ) (pats : Option (List Pattern))
    (pre : String) (h : Hierarchy) :
    Report.label (describeHierarchy runner pats pre h) = Hierarchy.label h := by
  cases h <;> rfl

/-- Crawling a directory produces a node labelled with the requested label. -/
theorem label_crawlDir (c : HierarchyCrawler) (label dirPath : String) (d : FsDir) :
    Hierarchy.label (c.crawlDir label dirPath d) = label := by
  cases d with
  | mk files subdirs =>
      rw [HierarchyCrawler.crawlDir]
      split <;> rfl

/-- Appending event lists appends their registered reports. -/
theorem registeredReports_append {M : Type} (a b : List (DescribeEvent M)) :
    registeredReports (a ++ b) = registeredReports a ++ registeredReports b := by
  simp [registeredReports]

/-- The console-log step registers no report. -/
theorem registeredReports_logIncludesEvents {M : Type} (tf : TestsFactory M) :
    registeredReports tf.logIncludesEvents = [] := by
  unfold TestsFactory.logIncludesEvents
  split
  · split <;> rfl
  · rfl

/-- C1 (counterexample): under the configuration `exampleRoleSettings`, the
directory `exampleOriginalOnlyDir` — whose only direct child is the original
role file, with the expected, actual, and settings role files all absent — is
classified as a `Case`, refuting the claim that a directory missing even one
of the four required files is classified as a `Suite`. -/
theorem crawlDir_case_without_all_required_files :
    (TestsFactory.new (0 : Nat) exampleRoleSettings).hierarchyCrawler.crawlDir "case-1" "cases/case-1"
        exampleOriginalOnlyDir = Hierarchy.case "case-1" "cases/case-1"
    ∧ allRequiredRoleFilesPresent exampleRoleSettings exampleOriginalOnlyDir = false :=
  ⟨rfl, rfl⟩

/-- C1 (amended): a directory is classified as a `Case` iff its direct
children include the file named by the configuration's original role; the
expected, actual, and settings file names are not consulted, and a directory
lacking the original file is classified as a `Suite`. -/
theorem crawlDir_case_iff_contains_original {M : Type} (mpf : M) (s : ITestDescriptionSettings)
    (label dirPath : String) (d : FsDir) :
    Hierarchy.isCase ((TestsFactory.new mpf s).hierarchyCrawler.crawlDir label dirPath d) =
      (FsDir.files d).contains s.original := by
  cases d with
  | mk files subdirs =>
      simp only [TestsFactory.new, HierarchyCrawler.crawlDir, FsDir.files]
      split <;> simp_all [Hierarchy.isCase]

/-- C7 (counterexample): the directory `exampleOriginalExpectedDir` partially
matches the four-file leaf predicate — the original and expected role files
are present, the actual and settings role files are absent — yet the crawler
classifies it as a `Case`, not as a `Suite` as the claim states. -/
theorem crawlDir_case_on_some_but_not_all_files :
    (FsDir.files exampleOriginalExpectedDir).contains exampleRoleSettings.original = true
    ∧ (FsDir.files exampleOriginalExpectedDir).contains exampleRoleSettings.expected = true
    ∧ allRequiredRoleFilesPresent exampleRoleSettings exampleOriginalExpectedDir = false
    ∧ Hierarchy.isSuite ((TestsFactory.new (0 : Nat) exampleRoleSettings).hierarchyCrawler.crawlDir
        "case-2" "cases/case-2" exampleOriginalExpectedDir) = false :=
  ⟨rfl, rfl, rfl, rfl⟩

/-- C7 (amended): a directory lacking the configured original role file is
classified as a `Suite` — regardless of which other role files are present —
and no error is raised: the crawler recurses into its subdirectories. The
classification predicate is total. -/
theorem crawlDir_suite_when_original_missing {M : Type} (mpf : M) (s : ITestDescriptionSettings)
    (label dirPath : String) (d : FsDir) (h : (FsDir.files d).contains s.original = false) :
    (TestsFactory.new mpf s).hierarchyCrawler.crawlDir label dirPath d =
      Hierarchy.suite label dirPath
        ((TestsFactory.new mpf s).hierarchyCrawler.crawlList dirPath (FsDir.subdirs d)) := by
  cases d with
  | mk files subdirs =>
      simp only [FsDir.files] at h
      simp only [TestsFactory.new, HierarchyCrawler.crawlDir, FsDir.subdirs]
      rw [if_neg (by simp_all)]

/-- Witness for C7 (amended) at `exampleExpectedOnlyDir`. -/
theorem crawlDir_suite_when_original_missing_witness :
    (FsDir.files exampleExpectedOnlyDir).contains exampleRoleSettings.original = false
    ∧ (TestsFactory.new (0 : Nat) exampleRoleSettings).hierarchyCrawler.crawlDir "group-c" "cases/group-c"
          exampleExpectedOnlyDir =
        Hierarchy.suite "group-c" "cases/group-c"
          ((TestsFactory.new (0 : Nat) exampleRoleSettings).hierarchyCrawler.crawlList "cases/group-c"
            (FsDir.subdirs exampleExpectedOnlyDir)) :=
  ⟨rfl, crawlDir_suite_when_original_missing 0 exampleRoleSettings "group-c" "cases/group-c"
    exampleExpectedOnlyDir rfl⟩

/-- C2: for a non-empty inclusion pattern set, the registered run entries list
every leaf qualified name — no leaf is absent from the suite tree — and a leaf
is run iff at least one pattern matches its qualified name (logical OR across
patterns); a leaf matching zero patterns is registered with run flag false,
that is, registered-but-skipped. -/
theorem describeTests_runs_leaf_iff_some_pattern_matches {ρ : Type} (root : Hierarchy)
    (runner : Hierarchy → ρ) (ps : List Pattern) (hne : ps ≠ []) :
    Report.runEntries "" (describeTests root runner (some ps)) =
      (Hierarchy.leafQualifiedNames "" root).map (fun qn => (qn, ps.any (fun p => p qn))) := by
  rw [describeTests, runEntries_describeHierarchy]
  have hf : (fun qn => (qn, isIncluded qn (some ps))) = (fun qn => (qn, ps.any (fun p => p qn))) := by
    funext qn
    cases ps with
    | nil => exact absurd rfl hne
    | cons p t => simp [isIncluded]
  rw [hf]

/-- Witness for C2 on `exampleHierarchy` with the single pattern
`examplePattern`. -/
theorem describeTests_runs_leaf_iff_some_pattern_matches_witness :
    ([examplePattern] ≠ ([] : List Pattern))
    ∧ Report.runEntries "" (describeTests exampleHierarchy exampleRunner (some [examplePattern])) =
        (Hierarchy.leafQualifiedNames "" exampleHierarchy).map
          (fun qn => (qn, [examplePattern].any (fun p => p qn))) :=
  ⟨List.cons_ne_nil _ _,
    describeTests_runs_leaf_iff_some_pattern_matches exampleHierarchy exampleRunner [examplePattern]
      (List.cons_ne_nil _ _)⟩

/-- C3: when the inclusion pattern set is empty or undefined, every leaf
`Case` is included: the registered run entries of the described crawl are
exactly the qualified names of all leaf directories under the root, each with
run flag true. -/
theorem describeTests_empty_includes_runs_all_leaves {ρ : Type} (orig rootLabel rootPath : String)
    (d : FsDir) (runner : Hierarchy → ρ) (pats : Option (List Pattern))
    (hempty : pats = none ∨ pats = some []) :
    Report.runEntries ""
        (describeTests ((HierarchyCrawler.mk orig).crawlDir rootLabel rootPath d) runner pats) =
      (FsDir.leafDirNames orig "" rootLabel d).map (fun qn => (qn, true)) := by
  rw [describeTests, runEntries_describeHierarchy,
    leafQualifiedNames_crawlDir (HierarchyCrawler.mk orig) rootLabel rootPath "" d]
  rcases hempty with rfl | rfl
  · simp [isIncluded]
  · simp [isIncluded]

/-- Witness for C3 on `exampleFsTree` with undefined includes. -/
theorem describeTests_empty_includes_runs_all_leaves_witness :
    ((none : Option (List Pattern)) = none ∨ (none : Option (List Pattern)) = some [])
    ∧ Report.runEntries ""
          (describeTests ((HierarchyCrawler.mk "original.txt").crawlDir "cases" "cases" exampleFsTree)
            exampleRunner none) =
        (FsDir.leafDirNames "original.txt" "" "cases" exampleFsTree).map (fun qn => (qn, true)) :=
  ⟨Or.inl rfl,
    describeTests_empty_includes_runs_all_leaves "original.txt" "cases" "cases" exampleFsTree
      exampleRunner none (Or.inl rfl)⟩

/-- C4: the shape of the registered report — its suite/test structure and
labels — is the report skeleton of the hierarchy, independent of the runner
and of the inclusion patterns: the filter is applied only at leaf nodes, every
`Suite` node is registered regardless of what its descendants match, and the
registered shape is identical across filtered and unfiltered runs. -/
theorem describeTests_shape_independent_of_includes {ρ : Type} (root : Hierarchy)
    (runner : Hierarchy → ρ) (pats : Option (List Pattern)) :
    Report.shape (describeTests root runner pats) = Hierarchy.reportSkeleton root := by
  rw [describeTests]
  exact shape_describeHierarchy runner pats "" root

/-- C5: for every leaf `Case` node handed to the runner, `runTest` invokes
`runTestCase` with a settings record created from that leaf: each of the
original, expected, actual, and settings paths is the join of the leaf's
directory path with the corresponding configured relative file name, and the
accept flag is forwarded unchanged from the configuration. -/
theorem runTest_settings_joined_from_leaf_path {M : Type} (tf : TestsFactory M) (h : Hierarchy)
    (_hcase : Hierarchy.isCase h = true) :
    tf.runTest h =
      { settings :=
          { accept := tf.settings.accept
            actual := pathJoin (Hierarchy.directoryPath h) tf.settings.actual
            expected := pathJoin (Hierarchy.directoryPath h) tf.settings.expected
            original := pathJoin (Hierarchy.directoryPath h) tf.settings.original
            settings := pathJoin (Hierarchy.directoryPath h) tf.settings.settings }
        autoMutatorFactory := tf.autoMutatorFactory } := rfl

/-- Witness for C5 at a concrete leaf of `exampleTestsFactory`. -/
theorem runTest_settings_joined_from_leaf_path_witness :
    Hierarchy.isCase (Hierarchy.case "case-1" "cases/group-a/case-1") = true
    ∧ exampleTestsFactory.runTest (Hierarchy.case "case-1" "cases/group-a/case-1") =
        { settings :=
            { accept := none
              actual := "cases/group-a/case-1/actual.txt"
              expected := "cases/group-a/case-1/expected.txt"
              original := "cases/group-a/case-1/original.txt"
              settings := "cases/group-a/case-1/settings.json" }
          autoMutatorFactory := { mutationsProviderFactory := 0 } } :=
  ⟨rfl,
    (runTest_settings_joined_from_leaf_path exampleTestsFactory
      (Hierarchy.case "case-1" "cases/group-a/case-1") rfl).trans rfl⟩

/-- C6: describing with a missing root cases directory fails with a `NotFound`
error naming the missing path, and no registration event is emitted, so the
failure is surfaced before any suite is registered. -/
theorem describe_missing_root_fails_notFound {M : Type} (tf : TestsFactory M) (casesPath : String) :
    (tf.describe casesPath none).2 = some (CrawlError.notFound casesPath)
    ∧ List.countP (fun e => DescribeEvent.isRegisterTests e) (tf.describe casesPath none).1 = 0 := by
  constructor
  · rfl
  · simp only [TestsFactory.describe, HierarchyCrawler.crawl]
    rw [List.countP_append]
    have h1 : List.countP (fun e => DescribeEvent.isRegisterTests e)
        (TestsFactory.logIncludesEvents tf) = 0 := by
      unfold TestsFactory.logIncludesEvents
      split
      · split <;> rfl
      · rfl
    rw [h1]
    rfl

/-- C8: the active inclusion patterns are logged exactly once when `includes`
is defined and non-empty, and never otherwise; every log event precedes the
crawl, whose marker is the first non-log event, and no log occurs among the
later events, so logging happens once, before traversal and registration
begin. -/
theorem describe_logs_includes_once_before_crawl {M : Type} (tf : TestsFactory M) (casesPath : String)
    (root : Option FsDir) :
    List.countP (fun e => DescribeEvent.isLogIncludes e) (tf.describe casesPath root).1 =
      (match tf.settings.includes with
       | some ps => if ps.length ≠ 0 then 1 else 0
       | none => 0)
    ∧ List.head? (List.dropWhile (fun e => DescribeEvent.isLogIncludes e) (tf.describe casesPath root).1) =
        some (DescribeEvent.crawlStart "cases" casesPath)
    ∧ List.countP (fun e => DescribeEvent.isLogIncludes e)
        (List.dropWhile (fun e => DescribeEvent.isLogIncludes e) (tf.describe casesPath root).1) = 0 := by
  rcases hinc : tf.settings.includes with _ | ps
  · cases root <;>
      simp [TestsFactory.describe, HierarchyCrawler.crawl, TestsFactory.logIncludesEvents, hinc,
        DescribeEvent.isLogIncludes, List.dropWhile]
  · by_cases hps : ps.length = 0 <;>
      cases root <;>
        simp [TestsFactory.describe, HierarchyCrawler.crawl, TestsFactory.logIncludesEvents, hinc, hps,
          DescribeEvent.isLogIncludes, List.dropWhile]

/-- C9: the free function `describeMutationTestCases` is definitionally the
construction of a `TestsFactory` from the same mutations provider factory and
settings followed by its `describe` call on the same cases path: the
deprecated wrapper class adds no state or behavior beyond the function. -/
theorem describeMutationTestCases_eq_factory_describe {M : Type} (casesPath : String) (mpf : M)
    (s : ITestDescriptionSettings) (root : Option FsDir) :
    describeMutationTestCases casesPath mpf s root = (TestsFactory.new mpf s).describe casesPath root :=
  rfl

/-- C10: for every cases path, settings record, and existing root directory,
the single registered report is labelled with exactly the string "cases",
independent of the cases path and of every field of the settings. -/
theorem registered_root_label_is_cases {M : Type} (mpf : M) (s : ITestDescriptionSettings)
    (casesPath : String) (d : FsDir) :
    List.map Report.label (registeredReports (describeMutationTestCases casesPath mpf s (some d)).1) =
      ["cases"] := by
  simp only [describeMutationTestCases, TestsFactory.describe, HierarchyCrawler.crawl]
  rw [registeredReports_append, registeredReports_logIncludesEvents]
  simp only [registeredReports, List.filterMap_cons, List.filterMap_nil, List.nil_append,
    List.map_cons, List.map_nil]
  rw [describeTests, label_describeHierarchy, label_crawlDir]
